import Mathlib

/-!
Verification of the sknwpl-meetings pipeline orchestrator and its adapters.

Python strings are modelled as `List Char` (`PyStr`); Python `str.strip` is
modelled with `Char.isWhitespace` (covering the ASCII whitespace that can
occur in the ledger file), `str.split` with `List.splitOn`, substring search
with an explicit first-occurrence splitter, and `int(...)` parsing with an
explicit sign-and-digits parser (digit-grouping underscores are not
modelled).  File states are `Option PyStr` (`none` = the file is absent).
-/

abbrev PyStr := List Char

/-- Model of Python `str.strip()`: drop whitespace from both ends. -/
def pyStrip (s : PyStr) : PyStr :=
  (s.dropWhile Char.isWhitespace).rdropWhile Char.isWhitespace

/-- Decimal rendering of a natural number, as Python `str(n)` produces it. -/
def natRepr (n : Nat) : PyStr :=
  if _h : n < 10 then [Nat.digitChar n]
  else natRepr (n / 10) ++ [Nat.digitChar (n % 10)]
decreasing_by exact Nat.div_lt_self (by omega) (by omega)

/-- Decimal rendering of an integer, as Python `str(n)` / f-string formatting. -/
def intRepr (n : Int) : PyStr :=
  if n < 0 then '-' :: natRepr n.natAbs else natRepr n.toNat

/-- Parse a nonempty all-digit string into a natural number. -/
def parseDigits (s : PyStr) : Option Nat :=
  if s ≠ [] ∧ s.all Char.isDigit then
    some (s.foldl (fun a c => a * 10 + (c.toNat - 48)) 0)
  else none

/-- Optional-sign-and-digits part of Python `int(str)` parsing. -/
def parseSigned : PyStr → Option Int
  | [] => none
  | c :: rest =>
    if c = '-' then (parseDigits rest).map (fun v => -(v : Int))
    else if c = '+' then (parseDigits rest).map (fun v => (v : Int))
    else (parseDigits (c :: rest)).map (fun v => (v : Int))

/-- Model of Python `int(str)`: strip whitespace, optional sign, digits. -/
def parsePyInt (s : PyStr) : Option Int :=
  parseSigned (pyStrip s)

/-- Split a string at the first occurrence of `sep`, returning the parts
before and after it; `none` when `sep` does not occur (Python
`sep in s` and `s.split(sep)[0]` for a nonempty `sep`). -/
def splitFirst (sep : PyStr) : PyStr → Option (PyStr × PyStr)
  | [] => none
  | c :: rest =>
    if sep.isPrefixOf (c :: rest) then some ([], (c :: rest).drop sep.length)
    else
      match splitFirst sep rest with
      | some (pre, post) => some (c :: pre, post)
      | none => none

/-- The separator `" - "` used by the ledger lines of `full_pipeline.py`. -/
def sepDash : PyStr := [' ', '-', ' ']

/-- The number parsed from the last ledger line: `full_pipeline.py` strips
the last line, checks that `" - "` occurs in it, and parses the part before
the first occurrence with `int(...)` (a failing parse is the caught
`ValueError`). -/
def lastLineNumber (lines : List PyStr) : Option Int :=
  match splitFirst sepDash (pyStrip (lines.getLastD [])) with
  | some (before, _) => parsePyInt before
  | none => none

/-- Body of `get_next_meeting_number` after the lines of the ledger file have
been computed: `1` for an empty file, the parsed last number plus one when
the last line parses, and the line count plus one otherwise. -/
def nextFromLines (lines : List PyStr) : Int :=
  if lines = [] ∨ lines = [[]] then 1
  else
    match lastLineNumber lines with
    | some k => k + 1
    | none => (lines.length : Int) + 1

/-- `get_next_meeting_number` of `cluster/full_pipeline.py`: `1` when the
ledger file is absent, else parse `read_text().strip().split("\n")`. -/
def get_next_meeting_number (file : Option PyStr) : Int :=
  match file with
  | none => 1
  | some content => nextFromLines ((pyStrip content).splitOn '\n')

/-- `append_youtube_link` of `cluster/full_pipeline.py`: append
`f"{meeting_number} - {youtube_url}\n"` to the ledger file content
(an absent file is created by `open(..., "a")`, i.e. content `[]`). -/
def append_youtube_link (content : PyStr) (meeting_number : Int) (youtube_url : PyStr) : PyStr :=
  content ++ intRepr meeting_number ++ sepDash ++ youtube_url ++ ['\n']

/-! ### Decimal rendering: basic lemmas -/

theorem natRepr_ne_nil (n : Nat) : natRepr n ≠ [] := by
  rw [natRepr]
  split
  · simp
  · simp

theorem natRepr_mem_digits (n : Nat) :
    ∀ c ∈ natRepr n, c ∈ ['0', '1', '2', '3', '4', '5', '6', '7', '8', '9'] := by
  induction n using Nat.strong_induction_on with
  | _ n ih =>
    rw [natRepr]
    split
    · rename_i h
      intro c hc
      simp only [List.mem_singleton] at hc
      subst hc
      interval_cases n <;> decide
    · rename_i h
      intro c hc
      rw [List.mem_append] at hc
      rcases hc with hc | hc
      · exact ih (n / 10) (Nat.div_lt_self (by omega) (by omega)) c hc
      · simp only [List.mem_singleton] at hc
        subst hc
        have hr : n % 10 < 10 := Nat.mod_lt _ (by omega)
        interval_cases hfin : (n % 10) <;> decide

theorem natRepr_all_digit (n : Nat) : (natRepr n).all Char.isDigit = true := by
  rw [List.all_eq_true]
  intro c hc
  have := natRepr_mem_digits n c hc
  fin_cases this <;> decide

theorem natRepr_not_whitespace (n : Nat) :
    ∀ c ∈ natRepr n, c.isWhitespace = false := by
  intro c hc
  have := natRepr_mem_digits n c hc
  fin_cases this <;> decide

theorem natRepr_ne_space (n : Nat) : ∀ c ∈ natRepr n, c ≠ ' ' := by
  intro c hc
  have := natRepr_mem_digits n c hc
  fin_cases this <;> decide

theorem digitChar_toNat (d : Nat) (h : d < 10) : (Nat.digitChar d).toNat = 48 + d := by
  interval_cases d <;> rfl

theorem natRepr_foldl (n : Nat) (a : Nat) :
    (natRepr n).foldl (fun a c => a * 10 + (c.toNat - 48)) a =
      a * 10 ^ (natRepr n).length + n := by
  induction n using Nat.strong_induction_on generalizing a with
  | _ n ih =>
    rw [natRepr]
    split
    · rename_i h
      simp only [List.foldl_cons, List.foldl_nil, List.length_singleton, pow_one]
      rw [digitChar_toNat n h]
      omega
    · rename_i h
      rw [List.foldl_append]
      rw [ih (n / 10) (Nat.div_lt_self (by omega) (by omega)) a]
      simp only [List.foldl_cons, List.foldl_nil, List.length_append,
        List.length_singleton]
      rw [digitChar_toNat (n % 10) (Nat.mod_lt _ (by omega)), pow_succ]
      have h2 : n / 10 * 10 + n % 10 = n := by omega
      calc (a * 10 ^ (natRepr (n / 10)).length + n / 10) * 10 + (48 + n % 10 - 48)
          = a * (10 ^ (natRepr (n / 10)).length * 10) + (n / 10 * 10 + n % 10) := by
            rw [Nat.add_sub_cancel_left]; ring
        _ = a * (10 ^ (natRepr (n / 10)).length * 10) + n := by rw [h2]

theorem parseDigits_natRepr (n : Nat) : parseDigits (natRepr n) = some n := by
  rw [parseDigits, if_pos ⟨natRepr_ne_nil n, natRepr_all_digit n⟩]
  rw [natRepr_foldl n 0]
  simp

/-! ### Stripping and first-occurrence splitting -/

theorem pyStrip_eq_self (s : PyStr)
    (h1 : ∀ hl : 0 < s.length, (s.get ⟨0, hl⟩).isWhitespace = false)
    (h2 : ∀ hl : s ≠ [], (s.getLast hl).isWhitespace = false) : pyStrip s = s := by
  have hd : List.dropWhile Char.isWhitespace s = s :=
    List.dropWhile_eq_self_iff.mpr (fun hl => by simpa using h1 hl)
  have hr : List.rdropWhile Char.isWhitespace s = s :=
    List.rdropWhile_eq_self_iff.mpr (fun hl => by simp [h2 hl])
  rw [pyStrip, hd, hr]

theorem pyStrip_of_all_not_ws (s : PyStr)
    (h : ∀ c ∈ s, c.isWhitespace = false) : pyStrip s = s := by
  refine pyStrip_eq_self s (fun hl => ?_) (fun hl => ?_)
  · exact h _ (List.get_mem s 0 hl)
  · exact h _ (List.getLast_mem hl)

theorem pyStrip_natRepr (n : Nat) : pyStrip (natRepr n) = natRepr n :=
  pyStrip_of_all_not_ws _ (natRepr_not_whitespace n)

theorem natRepr_head_facts (n : Nat) :
    ∀ c ∈ natRepr n, c ≠ '-' ∧ c ≠ '+' := by
  intro c hc
  have := natRepr_mem_digits n c hc
  fin_cases this <;> exact ⟨by decide, by decide⟩

theorem parseSigned_natRepr (n : Nat) : parseSigned (natRepr n) = some (n : Int) := by
  rcases hrep : natRepr n with _ | ⟨c, t⟩
  · exact absurd hrep (natRepr_ne_nil n)
  · have hc : c ∈ natRepr n := by rw [hrep]; exact List.mem_cons_self c t
    have hfacts := natRepr_head_facts n c hc
    have hdig : parseDigits (c :: t) = some n := by rw [← hrep]; exact parseDigits_natRepr n
    simp only [parseSigned, if_neg hfacts.1, if_neg hfacts.2, hdig]
    simp

theorem parsePyInt_natRepr (n : Nat) : parsePyInt (natRepr n) = some (n : Int) := by
  rw [parsePyInt, pyStrip_natRepr, parseSigned_natRepr]

theorem splitFirst_sepDash (ds : PyStr) (hds : ∀ c ∈ ds, c ≠ ' ') (url : PyStr) :
    splitFirst sepDash (ds ++ sepDash ++ url) = some (ds, url) := by
  induction ds with
  | nil =>
    show splitFirst sepDash (' ' :: '-' :: ' ' :: url) = some ([], url)
    rw [splitFirst]
    rw [if_pos (by simp [sepDash, List.isPrefixOf])]
    simp [sepDash]
  | cons c t ih =>
    have hc : c ≠ ' ' := hds c (List.mem_cons_self c t)
    have hstep : (c :: t ++ sepDash) ++ url = c :: (t ++ sepDash ++ url) := by simp
    rw [hstep, splitFirst]
    rw [if_neg (by simp [sepDash, List.isPrefixOf]; intro h; exact absurd h.symm hc)]
    rw [ih (fun x hx => hds x (List.mem_cons_of_mem c hx))]

/-- A well-formed ledger line: `str(n)`, then `" - "`, then the URL. -/
def ledgerLine (n : Nat) (url : PyStr) : PyStr := natRepr n ++ sepDash ++ url

theorem pyStrip_ledgerLine (n : Nat) (url : PyStr) (hu : url ≠ [])
    (hw : (url.getLast hu).isWhitespace = false) :
    pyStrip (ledgerLine n url) = ledgerLine n url := by
  rcases List.eq_nil_or_concat' url with h | ⟨u, e, hue⟩
  · exact absurd h hu
  have he : e.isWhitespace = false := by
    subst hue
    simpa [List.getLast_concat] using hw
  rcases hrep : natRepr n with _ | ⟨c, t⟩
  · exact absurd hrep (natRepr_ne_nil n)
  have hc : c.isWhitespace = false :=
    natRepr_not_whitespace n c (by rw [hrep]; exact List.mem_cons_self c t)
  have hform : ledgerLine n url = c :: ((t ++ sepDash ++ u) ++ [e]) := by
    simp only [ledgerLine, hrep, hue]
    simp
  rw [hform, pyStrip]
  have h1 : List.dropWhile Char.isWhitespace (c :: ((t ++ sepDash ++ u) ++ [e]))
      = c :: ((t ++ sepDash ++ u) ++ [e]) := by
    rw [List.dropWhile_cons, if_neg (by simp [hc])]
  rw [h1]
  have h2 : c :: ((t ++ sepDash ++ u) ++ [e]) = (c :: (t ++ sepDash ++ u)) ++ [e] := by
    simp
  rw [h2, List.rdropWhile_concat_neg Char.isWhitespace (c :: (t ++ sepDash ++ u)) e
    (by simp [he])]

theorem nextFromLines_wellformed (pre : List PyStr) (n : Nat) (url : PyStr)
    (hu : url ≠ []) (hw : (url.getLast hu).isWhitespace = false) :
    nextFromLines (pre ++ [ledgerLine n url]) = (n : Int) + 1 := by
  have hne : pre ++ [ledgerLine n url] ≠ [] := by simp
  have hline_ne : ledgerLine n url ≠ [] := by
    rw [ledgerLine]
    intro h
    rcases List.append_eq_nil.mp (List.append_eq_nil.mp h).1 with ⟨h1, _⟩
    exact natRepr_ne_nil n h1
  have hne2 : pre ++ [ledgerLine n url] ≠ [[]] := by
    intro h
    have h1 : (pre ++ [ledgerLine n url]).getLastD [] = ([[]] : List PyStr).getLastD [] := by
      rw [h]
    rw [List.getLastD_concat] at h1
    exact hline_ne (by simpa using h1)
  rw [nextFromLines, if_neg (by simp [hne, hne2])]
  have hlast : (pre ++ [ledgerLine n url]).getLastD [] = ledgerLine n url :=
    List.getLastD_concat _ _ _
  rw [lastLineNumber, hlast, pyStrip_ledgerLine n url hu hw]
  simp only [ledgerLine, splitFirst_sepDash (natRepr n) (natRepr_ne_space n) url]
  simp [parsePyInt_natRepr]

/-! ### Claim C1 -/

/-- C1: For every state of the ledger file, `get_next_meeting_number` returns
1 when the file is absent or empty; when the file's last line has the form
`"<number> - <url>"` it returns that number plus one; and when the last line
is malformed (the parse of the part before `" - "` fails, or `" - "` does not
occur) it returns the file's line count plus one — the same plain integer
return, with no error reported. -/
theorem get_next_meeting_number_spec :
    get_next_meeting_number none = 1 ∧
    get_next_meeting_number (some []) = 1 ∧
    (∀ (content : PyStr) (pre : List PyStr) (n : Nat) (url : PyStr)
      (hu : url ≠ []),
      (url.getLast hu).isWhitespace = false →
      (pyStrip content).splitOn '\n' = pre ++ [ledgerLine n url] →
      get_next_meeting_number (some content) = (n : Int) + 1) ∧
    (∀ (content : PyStr) (lines : List PyStr),
      (pyStrip content).splitOn '\n' = lines →
      lines ≠ [] → lines ≠ [[]] →
      lastLineNumber lines = none →
      get_next_meeting_number (some content) = (lines.length : Int) + 1) := by
  refine ⟨rfl, by decide, ?_, ?_⟩
  · intro content pre n url hu hw hsplit
    show nextFromLines ((pyStrip content).splitOn '\n') = (n : Int) + 1
    rw [hsplit]
    exact nextFromLines_wellformed pre n url hu hw
  · intro content lines hsplit hne hne2 hmal
    show nextFromLines ((pyStrip content).splitOn '\n') = (lines.length : Int) + 1
    rw [hsplit, nextFromLines, if_neg (by simp [hne, hne2]), hmal]

/-- C1 witness: the ledger file content `"7 - https://example.com/v7"` yields
8, and the malformed single-line content `"oops"` yields its line count plus
one, i.e. 2. -/
theorem get_next_meeting_number_spec_witness :
    get_next_meeting_number (some (("7 - https://example.com/v7").toList)) = (7 : Int) + 1 ∧
    get_next_meeting_number (some (("oops").toList)) = (1 : Int) + 1 := by
  have h7 : natRepr 7 = ['7'] := by rw [natRepr]; decide
  constructor
  · refine get_next_meeting_number_spec.2.2.1 (("7 - https://example.com/v7").toList) []
      7 (("https://example.com/v7").toList) (by decide) (by decide) ?_
    simp only [ledgerLine, h7, sepDash]
    decide
  · have h := get_next_meeting_number_spec.2.2.2 (("oops").toList)
      [['o', 'o', 'p', 's']] (by decide) (by decide) (by decide) (by decide)
    simpa using h

/-! ### Pipeline orchestrator model (`run_full_pipeline`) -/

/-- The pipeline stage in which an exception is raised. -/
inductive Stage where
  | transcribing
  | encoding
  | publishing
deriving DecidableEq, Repr

/-- Outcomes of the three external stages for one run: whether
`transcribe_with_faster_whisper` and `create_video_from_audio` return
normally, and the URL `upload_video` returns (`none` when it raises). -/
structure StageOutcomes where
  transcribeOk : Bool
  videoOk : Bool
  uploadResult : Option PyStr
deriving DecidableEq, Repr

/-- On-disk state touched by one `run_full_pipeline` invocation: the ledger
file `youtube_links.txt`, the transcript artifact files, the video file, and
the per-run `youtube_link.txt` marker. -/
structure PipelineState where
  ledger : Option PyStr
  transcriptFiles : Bool
  videoFile : Bool
  linkFile : Option PyStr
deriving DecidableEq, Repr

/-- The summary returned by `run_full_pipeline`; the path fields of the
returned dict are derived from the meeting number, the date and the audio
stem, so the model keeps the number, the URL and the date. -/
structure RunSummary where
  meeting_number : Int
  youtube_url : PyStr
  date : PyStr
deriving DecidableEq, Repr

/-- Python `x or y` for an optional int (`None` and `0` are falsy). -/
def pyOrInt (v : Option Int) (d : Int) : Int :=
  match v with
  | none => d
  | some k => if k = 0 then d else k

/-- Python `x or y` for an optional string (`None` and `""` are falsy). -/
def pyOrStr (v : Option PyStr) (d : PyStr) : PyStr :=
  match v with
  | none => d
  | some s => if s = [] then d else s

/-- `run_full_pipeline` of `cluster/full_pipeline.py`, over the stage
outcomes: resolve the date and the meeting number (Python `or`), then run
transcription, video creation and upload in order; a raising stage
propagates immediately, leaving the state written so far; on upload success
append to the ledger and write the link marker.  Returns the final on-disk
state, the list of stages that started, and either the raising stage or the
summary. -/
def run_full_pipeline (env : StageOutcomes) (meeting_number : Option Int)
    (date : Option PyStr) (today : PyStr) (st : PipelineState) :
    PipelineState × List Stage × Except Stage RunSummary :=
  let d := pyOrStr date today
  let n := pyOrInt meeting_number (get_next_meeting_number st.ledger)
  if env.transcribeOk = false then
    (st, [Stage.transcribing], Except.error Stage.transcribing)
  else
    let st1 := { st with transcriptFiles := true }
    if env.videoOk = false then
      (st1, [Stage.transcribing, Stage.encoding], Except.error Stage.encoding)
    else
      let st2 := { st1 with videoFile := true }
      match env.uploadResult with
      | none =>
        (st2, [Stage.transcribing, Stage.encoding, Stage.publishing],
          Except.error Stage.publishing)
      | some url =>
        let st3 := { st2 with
          ledger := some (append_youtube_link (st2.ledger.getD []) n url)
          linkFile := some url }
        (st3, [Stage.transcribing, Stage.encoding, Stage.publishing],
          Except.ok { meeting_number := n, youtube_url := url, date := d })

/-- `n` successful runs with no explicit overrides, run `k` publishing
`urls k`. -/
def runPipelineN (urls : Nat → PyStr) (today : PyStr) : Nat → PipelineState → PipelineState
  | 0, st => st
  | k + 1, st =>
    (run_full_pipeline ⟨true, true, some (urls k)⟩ none none today
      (runPipelineN urls today k st)).1

/-- The ledger content after runs `1..n`: the line `"k - urls (k-1)"`
terminated by a newline, for each `k`. -/
def ledgerContent (urls : Nat → PyStr) (n : Nat) : PyStr :=
  ((List.range n).map (fun k => ledgerLine (k + 1) (urls k) ++ ['\n'])).flatten

/-! ### Joining lines with newlines -/

/-- Lines joined by single newlines (no trailing newline). -/
def joinLines : List PyStr → PyStr
  | [] => []
  | [l] => l
  | l :: ls => l ++ '\n' :: joinLines ls

theorem flatten_map_newline (ls : List PyStr) (hne : ls ≠ []) :
    (ls.map (fun l => l ++ ['\n'])).flatten = joinLines ls ++ ['\n'] := by
  induction ls with
  | nil => exact absurd rfl hne
  | cons l t ih =>
    cases t with
    | nil => simp [joinLines]
    | cons l2 t2 =>
      rw [List.map_cons, List.flatten_cons, ih (by simp)]
      show l ++ ['\n'] ++ (joinLines (l2 :: t2) ++ ['\n']) =
        (l ++ '\n' :: joinLines (l2 :: t2)) ++ ['\n']
      simp

theorem splitOn_joinLines (ls : List PyStr) (hne : ls ≠ [])
    (h : ∀ l ∈ ls, '\n' ∉ l) : (joinLines ls).splitOn '\n' = ls := by
  induction ls with
  | nil => exact absurd rfl hne
  | cons l t ih =>
    cases t with
    | nil =>
      show l.splitOn '\n' = [l]
      rw [List.splitOn]
      refine List.splitOnP_eq_single _ _ (fun x hx => ?_)
      simp only [beq_iff_eq]
      intro heq
      subst heq
      exact h l (List.mem_cons_self l []) hx
    | cons l2 t2 =>
      show (l ++ '\n' :: joinLines (l2 :: t2)).splitOn '\n' = l :: l2 :: t2
      rw [List.splitOn]
      rw [List.splitOnP_first _ l
        (fun x hx => by
          simp only [beq_iff_eq]
          intro heq
          subst heq
          exact h l (List.mem_cons_self l _) hx)
        '\n' (by simp) (joinLines (l2 :: t2))]
      have := ih (by simp) (fun x hx => h x (List.mem_cons_of_mem l hx))
      rw [List.splitOn] at this
      rw [this]

/-! ### Stripping the joined ledger content -/

theorem dropWhile_ws_of_head (l : PyStr) (hl : l ≠ [])
    (hh : l.headI.isWhitespace = false) (B : PyStr) :
    List.dropWhile Char.isWhitespace (l ++ B) = l ++ B := by
  cases l with
  | nil => exact absurd rfl hl
  | cons c t =>
    simp only [List.headI_cons] at hh
    rw [List.cons_append, List.dropWhile_cons, if_neg (by simp [hh])]

theorem rdropWhile_ws_of_last (l : PyStr) (hl : l ≠ [])
    (hh : (l.getLastD 'a').isWhitespace = false) (A : PyStr) :
    List.rdropWhile Char.isWhitespace (A ++ l) = A ++ l := by
  rcases List.eq_nil_or_concat' l with h | ⟨u, e, hue⟩
  · exact absurd h hl
  subst hue
  rw [List.getLastD_concat] at hh
  rw [← List.append_assoc]
  exact List.rdropWhile_concat_neg _ _ _ (by simp [hh])

theorem joinLines_cons_eq (l : PyStr) (rest : List PyStr) :
    ∃ T, joinLines (l :: rest) = l ++ T := by
  cases rest with
  | nil => exact ⟨[], by simp [joinLines]⟩
  | cons l2 t2 => exact ⟨'\n' :: joinLines (l2 :: t2), rfl⟩

theorem joinLines_concat_form (ls : List PyStr) (last : PyStr) :
    ∃ A, joinLines (ls ++ [last]) = A ++ last := by
  induction ls with
  | nil => exact ⟨[], by simp [joinLines]⟩
  | cons l t ih =>
    cases t with
    | nil => exact ⟨l ++ ['\n'], by simp [joinLines]⟩
    | cons y ys =>
      obtain ⟨A, hA⟩ := ih
      refine ⟨l ++ '\n' :: A, ?_⟩
      show l ++ '\n' :: joinLines ((y :: ys) ++ [last]) = (l ++ '\n' :: A) ++ last
      rw [hA]
      simp

/-! ### Facts about well-formed ledger lines -/

theorem ledgerLine_ne_nil (n : Nat) (url : PyStr) : ledgerLine n url ≠ [] := by
  rw [ledgerLine]
  intro h
  rcases List.append_eq_nil.mp (List.append_eq_nil.mp h).1 with ⟨h1, _⟩
  exact natRepr_ne_nil n h1

theorem ledgerLine_headI_not_ws (n : Nat) (url : PyStr) :
    (ledgerLine n url).headI.isWhitespace = false := by
  rcases hrep : natRepr n with _ | ⟨c, t⟩
  · exact absurd hrep (natRepr_ne_nil n)
  have hc : c.isWhitespace = false :=
    natRepr_not_whitespace n c (by rw [hrep]; exact List.mem_cons_self c t)
  have hform : ledgerLine n url = c :: (t ++ sepDash ++ url) := by
    simp only [ledgerLine, hrep]
    simp
  rw [hform, List.headI_cons]
  exact hc

theorem ledgerLine_getLastD_not_ws (n : Nat) (url : PyStr) (hu : url ≠ [])
    (hws : ∀ c ∈ url, c.isWhitespace = false) :
    ((ledgerLine n url).getLastD 'a').isWhitespace = false := by
  rcases List.eq_nil_or_concat' url with h | ⟨u, e, hue⟩
  · exact absurd h hu
  have he : e.isWhitespace = false := hws e (by rw [hue]; simp)
  have hform : ledgerLine n url = (natRepr n ++ sepDash ++ u) ++ [e] := by
    rw [ledgerLine, hue]
    simp
  rw [hform, List.getLastD_concat]
  exact he

theorem ledgerLine_no_newline (n : Nat) (url : PyStr)
    (hws : ∀ c ∈ url, c.isWhitespace = false) : '\n' ∉ ledgerLine n url := by
  intro hmem
  rw [ledgerLine] at hmem
  rcases List.mem_append.mp hmem with hmem | hmem
  · rcases List.mem_append.mp hmem with hmem | hmem
    · have := natRepr_not_whitespace n _ hmem
      simp at this
    · simp [sepDash] at hmem
  · have := hws _ hmem
    simp at this

/-! ### The ledger content after n successful runs -/

theorem pyStrip_ledgerContent (urls : Nat → PyStr) (n : Nat) (hn : 1 ≤ n)
    (hurls : ∀ k < n, urls k ≠ [] ∧ ∀ c ∈ urls k, c.isWhitespace = false) :
    pyStrip (ledgerContent urls n) =
      joinLines ((List.range n).map (fun k => ledgerLine (k + 1) (urls k))) := by
  obtain ⟨m, rfl⟩ : ∃ m, n = m + 1 := ⟨n - 1, by omega⟩
  have hc : ledgerContent urls (m + 1) =
      (((List.range (m + 1)).map (fun k => ledgerLine (k + 1) (urls k))).map
        (fun l => l ++ ['\n'])).flatten := by
    rw [ledgerContent, List.map_map]
    rfl
  have hlsne : (List.range (m + 1)).map (fun k => ledgerLine (k + 1) (urls k)) ≠ [] := by
    simp
  rw [hc, flatten_map_newline _ hlsne, pyStrip]
  have hhead : List.dropWhile Char.isWhitespace
      (joinLines ((List.range (m + 1)).map (fun k => ledgerLine (k + 1) (urls k))) ++ ['\n']) =
      joinLines ((List.range (m + 1)).map (fun k => ledgerLine (k + 1) (urls k))) ++ ['\n'] := by
    rw [List.range_succ_eq_map, List.map_cons]
    obtain ⟨T, hT⟩ := joinLines_cons_eq (ledgerLine 1 (urls 0))
      ((List.map Nat.succ (List.range m)).map (fun k => ledgerLine (k + 1) (urls k)))
    rw [hT, List.append_assoc]
    exact dropWhile_ws_of_head _ (ledgerLine_ne_nil 1 (urls 0))
      (ledgerLine_headI_not_ws 1 (urls 0)) _
  rw [hhead]
  rw [List.rdropWhile_concat_pos _ _ '\n' (by decide)]
  rw [List.range_succ, List.map_append, List.map_singleton]
  obtain ⟨A, hA⟩ := joinLines_concat_form
    ((List.range m).map (fun k => ledgerLine (k + 1) (urls k))) (ledgerLine (m + 1) (urls m))
  rw [hA]
  exact rdropWhile_ws_of_last _ (ledgerLine_ne_nil (m + 1) (urls m))
    (ledgerLine_getLastD_not_ws (m + 1) (urls m) (hurls m (by omega)).1
      (hurls m (by omega)).2) A

theorem get_next_ledgerContent (urls : Nat → PyStr) (n : Nat) (hn : 1 ≤ n)
    (hurls : ∀ k < n, urls k ≠ [] ∧ ∀ c ∈ urls k, c.isWhitespace = false) :
    get_next_meeting_number (some (ledgerContent urls n)) = (n : Int) + 1 := by
  show nextFromLines ((pyStrip (ledgerContent urls n)).splitOn '\n') = (n : Int) + 1
  rw [pyStrip_ledgerContent urls n hn hurls]
  rw [splitOn_joinLines _ (by simp only [ne_eq, List.map_eq_nil_iff, List.range_eq_nil]; omega) ?hnl]
  case hnl =>
    intro l hl
    rcases List.mem_map.mp hl with ⟨k, hk, rfl⟩
    exact ledgerLine_no_newline (k + 1) (urls k)
      (hurls k (List.mem_range.mp hk)).2
  obtain ⟨m, rfl⟩ : ∃ m, n = m + 1 := ⟨n - 1, by omega⟩
  rw [List.range_succ, List.map_append, List.map_singleton]
  have hu := (hurls m (by omega)).1
  have hw : ((urls m).getLast hu).isWhitespace = false :=
    (hurls m (by omega)).2 _ (List.getLast_mem hu)
  rw [nextFromLines_wellformed _ (m + 1) (urls m) hu hw]

theorem get_next_start (file : Option PyStr) (h : file = none ∨ file = some []) :
    get_next_meeting_number file = 1 := by
  rcases h with rfl | rfl
  · rfl
  · decide

theorem intRepr_natCast (n : Nat) : intRepr ((n : Nat) : Int) = natRepr n := by
  rw [intRepr, if_neg (by simp)]
  simp

theorem runPipelineN_ledger (urls : Nat → PyStr) (today : PyStr) (st : PipelineState)
    (hst : st.ledger = none ∨ st.ledger = some []) (N : Nat)
    (hurls : ∀ k < N, urls k ≠ [] ∧ ∀ c ∈ urls k, c.isWhitespace = false) :
    ∀ n, n ≤ N → 1 ≤ n →
      (runPipelineN urls today n st).ledger = some (ledgerContent urls n) := by
  intro n
  induction n with
  | zero => intro _ h; omega
  | succ m ih =>
    intro hle _
    show (run_full_pipeline ⟨true, true, some (urls m)⟩ none none today
      (runPipelineN urls today m st)).1.ledger = some (ledgerContent urls (m + 1))
    rcases Nat.eq_zero_or_pos m with hm | hm
    · subst hm
      show (run_full_pipeline ⟨true, true, some (urls 0)⟩ none none today st).1.ledger
        = some (ledgerContent urls 1)
      simp only [run_full_pipeline, pyOrInt, append_youtube_link]
      rw [get_next_start st.ledger hst]
      have hD : st.ledger.getD [] = [] := by rcases hst with h | h <;> simp [h]
      simp only [hD]
      have h1 : intRepr 1 = natRepr 1 := by
        have := intRepr_natCast 1
        simpa using this
      simp [ledgerContent, ledgerLine, h1, List.range_succ]
    · have hprev := ih (by omega) hm
      simp only [run_full_pipeline, pyOrInt, append_youtube_link]
      rw [hprev]
      have hnext : get_next_meeting_number (some (ledgerContent urls m)) = (m : Int) + 1 :=
        get_next_ledgerContent urls m hm (fun k hk => hurls k (by omega))
      simp only [hnext, Option.getD_some]
      have hint : intRepr ((m : Int) + 1) = natRepr (m + 1) := by
        have : ((m : Int) + 1) = ((m + 1 : Nat) : Int) := by push_cast; ring
        rw [this, intRepr_natCast]
      rw [hint]
      have hcontent : ledgerContent urls (m + 1) =
          ledgerContent urls m ++ (ledgerLine (m + 1) (urls m) ++ ['\n']) := by
        rw [ledgerContent, ledgerContent, List.range_succ, List.map_append,
          List.map_singleton, List.flatten_append]
        simp
      rw [hcontent, ledgerLine]
      simp

/-! ### Claim C2 -/

/-- C2: Starting from an absent or empty ledger file, after `N` successful
full-pipeline runs with no explicit sequence override (run `k` publishing
the nonempty whitespace-free URL `urls k`), the ledger file exists and its
content, stripped and split on newlines, is exactly the `N` lines
`"1 - urls 0"`, ..., `"N - urls (N-1)"`: one line per run, each of the form
`"<sequence number> - <url>"`, with sequence numbers strictly increasing
starting at 1. -/
theorem ledger_invariant_after_runs (N : Nat) (urls : Nat → PyStr) (today : PyStr)
    (st : PipelineState) (hst : st.ledger = none ∨ st.ledger = some [])
    (hurls : ∀ k < N, urls k ≠ [] ∧ ∀ c ∈ urls k, c.isWhitespace = false)
    (hN : 1 ≤ N) :
    (runPipelineN urls today N st).ledger = some (ledgerContent urls N) ∧
    (pyStrip (ledgerContent urls N)).splitOn '\n' =
      (List.range N).map (fun k => ledgerLine (k + 1) (urls k)) := by
  constructor
  · exact runPipelineN_ledger urls today st hst N hurls N le_rfl hN
  · rw [pyStrip_ledgerContent urls N hN hurls]
    have hnl : ∀ l ∈ (List.range N).map (fun k => ledgerLine (k + 1) (urls k)), '\n' ∉ l := by
      intro l hl
      rcases List.mem_map.mp hl with ⟨k, hk, rfl⟩
      exact ledgerLine_no_newline (k + 1) (urls k) (hurls k (List.mem_range.mp hk)).2
    exact splitOn_joinLines _
      (by simp only [ne_eq, List.map_eq_nil_iff, List.range_eq_nil]; omega) hnl

/-- C2 witness: two runs publishing the URL `"u"` from an absent ledger give
exactly the two lines `"1 - u"` and `"2 - u"`. -/
theorem ledger_invariant_after_runs_witness :
    (runPipelineN (fun _ => ['u']) [] 2 ⟨none, false, false, none⟩).ledger =
      some (ledgerContent (fun _ => ['u']) 2) ∧
    (pyStrip (ledgerContent (fun _ => ['u']) 2)).splitOn '\n' =
      [['1', ' ', '-', ' ', 'u'], ['2', ' ', '-', ' ', 'u']] := by
  have h := ledger_invariant_after_runs 2 (fun _ => ['u']) [] ⟨none, false, false, none⟩
    (Or.inl rfl) (fun k hk => ⟨by simp, by
      intro c hc
      have hcu : c = 'u' := by simpa using hc
      subst hcu
      decide⟩) (by omega)
  refine ⟨h.1, ?_⟩
  rw [h.2]
  have h1 : natRepr 1 = ['1'] := by rw [natRepr]; decide
  have h2 : natRepr 2 = ['2'] := by rw [natRepr]; decide
  simp [List.range_succ, ledgerLine, h1, h2, sepDash]

/-! ### Claim C3 -/

/-- C3: For every run of `run_full_pipeline`: when transcription raises, the
run stops with nothing written; when video creation raises, only the
transcript artifacts were written and they remain; when upload raises, the
transcript and video artifacts remain; in each failure the ledger and the
link marker are unchanged and no later stage starts.  When upload returns a
URL, and only then, the ledger gains exactly one appended line. -/
theorem pipeline_failure_contract (env : StageOutcomes) (mn : Option Int)
    (date : Option PyStr) (today : PyStr) (st : PipelineState) :
    (env.transcribeOk = false →
      run_full_pipeline env mn date today st =
        (st, [Stage.transcribing], Except.error Stage.transcribing)) ∧
    (env.transcribeOk = true → env.videoOk = false →
      run_full_pipeline env mn date today st =
        ({ st with transcriptFiles := true }, [Stage.transcribing, Stage.encoding],
          Except.error Stage.encoding)) ∧
    (env.transcribeOk = true → env.videoOk = true → env.uploadResult = none →
      run_full_pipeline env mn date today st =
        ({ st with transcriptFiles := true, videoFile := true },
          [Stage.transcribing, Stage.encoding, Stage.publishing],
          Except.error Stage.publishing)) ∧
    (∀ url, env.transcribeOk = true → env.videoOk = true → env.uploadResult = some url →
      run_full_pipeline env mn date today st =
        ({ st with
            transcriptFiles := true
            videoFile := true
            ledger := some ((st.ledger.getD []) ++
              intRepr (pyOrInt mn (get_next_meeting_number st.ledger)) ++
              sepDash ++ url ++ ['\n'])
            linkFile := some url },
          [Stage.transcribing, Stage.encoding, Stage.publishing],
          Except.ok { meeting_number := pyOrInt mn (get_next_meeting_number st.ledger),
                      youtube_url := url, date := pyOrStr date today })) := by
  refine ⟨?_, ?_, ?_, ?_⟩
  · intro h1
    simp [run_full_pipeline, h1]
  · intro h1 h2
    simp [run_full_pipeline, h1, h2]
  · intro h1 h2 h3
    simp [run_full_pipeline, h1, h2, h3]
  · intro url h1 h2 h3
    simp [run_full_pipeline, h1, h2, h3, append_youtube_link]

/-- C3 witness: with an absent ledger, a failing transcription leaves the
state untouched, and a fully successful run publishing `"u"` appends the
single line `"1 - u"`. -/
theorem pipeline_failure_contract_witness :
    (run_full_pipeline ⟨false, true, none⟩ none none [] ⟨none, false, false, none⟩ =
      (⟨none, false, false, none⟩, [Stage.transcribing], Except.error Stage.transcribing)) ∧
    (run_full_pipeline ⟨true, true, some ['u']⟩ none none [] ⟨none, false, false, none⟩).1.ledger =
      some ['1', ' ', '-', ' ', 'u', '\n'] := by
  constructor
  · exact (pipeline_failure_contract ⟨false, true, none⟩ none none [] _).1 rfl
  · have h := (pipeline_failure_contract ⟨true, true, some ['u']⟩ none none []
      ⟨none, false, false, none⟩).2.2.2 ['u'] rfl rfl rfl
    rw [h]
    have h1 : natRepr 1 = ['1'] := by rw [natRepr]; decide
    simp [pyOrInt, get_next_meeting_number, intRepr, h1, sepDash]

/-! ### Claim C10 -/

/-- C10: In `run_full_pipeline`, an explicit meeting number 0 and an explicit
empty-string date are treated exactly as if absent (Python `or` discards
falsy values): the run equals the run with the argument omitted, so the
sequence number is derived from the ledger and the current date is used. -/
theorem falsy_overrides_ignored (env : StageOutcomes) (date : Option PyStr)
    (today : PyStr) (st : PipelineState) :
    run_full_pipeline env (some 0) date today st =
      run_full_pipeline env none date today st ∧
    ∀ mn : Option Int, run_full_pipeline env mn (some []) today st =
      run_full_pipeline env mn none today st := by
  constructor
  · simp [run_full_pipeline, pyOrInt]
  · intro mn
    simp [run_full_pipeline, pyOrStr]

/-! ### Transcription module: device advisor and settings resolution -/

/-- The settings dict returned by `get_optimal_settings` of
`transcription.py`. -/
structure OptimalSettings where
  model_size : String
  compute_type : String
  batch_size : Int
  beam_size : Int
  cpu_threads : Int
deriving DecidableEq, Repr

/-- `detect_device` of `transcription.py`: `("cuda", "float16")` when torch
imports and reports CUDA available, `("cpu", "int8")` otherwise (also when
torch fails to import). -/
def detect_device (torchImports : Bool) (cudaAvailable : Bool) : String × String :=
  if torchImports && cudaAvailable then ("cuda", "float16") else ("cpu", "int8")

/-- `get_optimal_settings` of `transcription.py`.  `available_ram_gb` is the
caller argument; `psutilRam` is the value `psutil.virtual_memory().available`
yields in GB when `psutil` imports (`none` = `psutil` missing).  On the CPU
branch a `psutil` measurement overrides the argument; without `psutil`,
`available_ram_gb or 4.0` applies (`None` and `0.0` are falsy). -/
def get_optimal_settings (device : String) (available_ram_gb : Option ℚ)
    (psutilRam : Option ℚ) : OptimalSettings :=
  if device = "cuda" then
    ⟨"medium", "float16", 8, 5, 4⟩
  else
    let ram : ℚ :=
      match psutilRam with
      | some r => r
      | none =>
        match available_ram_gb with
        | some r => if r = 0 then 4 else r
        | none => 4
    if 4 ≤ ram then ⟨"small", "int8", 8, 5, 0⟩
    else ⟨"small", "int8", 1, 5, 0⟩

/-- The engine configuration `transcribe_with_faster_whisper` resolves
before loading the model. -/
structure ResolvedConfig where
  device : String
  model_size : String
  compute_type : String
  batch_size : Int
  beam_size : Int
  cpu_threads : Int
deriving DecidableEq, Repr

/-- Python `x or y` for an optional `str` argument (`None` and `""` falsy). -/
def pyOrString (v : Option String) (d : String) : String :=
  match v with
  | none => d
  | some s => if s = "" then d else s

/-- The resolution in `transcribe_with_faster_whisper` (lines 143-154):
`device = device or detected_device`; `optimal =
get_optimal_settings(device)` (no RAM argument); `model_size = model_size or
optimal[...]`; `compute_type = compute_type or optimal[...]`;
`batch_size = batch_size if batch_size is not None else optimal[...]`;
`beam_size` and `cpu_threads` always from the recommendation. -/
def resolveTranscribeSettings (model_size : Option String) (device : Option String)
    (compute_type : Option String) (batch_size : Option Int)
    (detected_device : String) (psutilRam : Option ℚ) : ResolvedConfig :=
  let dev := pyOrString device detected_device
  let optimal := get_optimal_settings dev none psutilRam
  { device := dev
    model_size := pyOrString model_size optimal.model_size
    compute_type := pyOrString compute_type optimal.compute_type
    batch_size := match batch_size with
      | none => optimal.batch_size
      | some b => b
    beam_size := optimal.beam_size
    cpu_threads := optimal.cpu_threads }

/-! ### Transcription module: result shapes -/

/-- The keys of the result dict built by `transcribe_with_faster_whisper`
(lines 228-238), in construction order. -/
def fasterWhisperResultKeys : List String :=
  ["audio_file", "language", "duration", "duration_formatted", "model",
   "device", "compute_type", "segments", "full_text"]

/-- The keys of the result dict built by `transcribe_with_openai`
(lines 323-330), in construction order. -/
def openaiResultKeys : List String :=
  ["audio_file", "language", "duration", "duration_formatted", "segments",
   "full_text"]

/-- The keys of each segment dict built by `transcribe_with_faster_whisper`
(lines 215-221). -/
def fasterWhisperSegmentKeys : List String :=
  ["start", "end", "text", "start_formatted", "end_formatted"]

/-- The keys of each segment dict built by `transcribe_with_openai`
(lines 314-320). -/
def openaiSegmentKeys : List String :=
  ["start", "end", "text", "start_formatted", "end_formatted"]

/-! ### Claim C5 -/

/-- C5: the advisor returns the GPU profile for a `"cuda"` device (model
`"medium"`, precision `"float16"`, batch size 8); for a `"cpu"` device with
measured available RAM below 4 GB it returns batch size 1, and with at least
4 GB batch size 8, in both CPU cases with model `"small"` and `"int8"`. -/
theorem get_optimal_settings_spec :
    (∀ (arg ps : Option ℚ), get_optimal_settings "cuda" arg ps =
      ⟨"medium", "float16", 8, 5, 4⟩) ∧
    (∀ (arg : Option ℚ) (r : ℚ), r < 4 → get_optimal_settings "cpu" arg (some r) =
      ⟨"small", "int8", 1, 5, 0⟩) ∧
    (∀ (arg : Option ℚ) (r : ℚ), 4 ≤ r → get_optimal_settings "cpu" arg (some r) =
      ⟨"small", "int8", 8, 5, 0⟩) := by
  refine ⟨fun arg ps => rfl, fun arg r hr => ?_, fun arg r hr => ?_⟩
  · rw [get_optimal_settings, if_neg (by decide)]
    simp only [if_neg (not_le.mpr hr)]
  · rw [get_optimal_settings, if_neg (by decide)]
    simp only [if_pos hr]

/-- C5 witness: no RAM argument, CUDA gives the GPU profile; CPU with 2 GB
gives batch size 1; CPU with 8 GB gives batch size 8. -/
theorem get_optimal_settings_spec_witness :
    get_optimal_settings "cuda" none none = ⟨"medium", "float16", 8, 5, 4⟩ ∧
    ((2 : ℚ) < 4 ∧ get_optimal_settings "cpu" none (some 2) = ⟨"small", "int8", 1, 5, 0⟩) ∧
    ((4 : ℚ) ≤ 8 ∧ get_optimal_settings "cpu" none (some 8) = ⟨"small", "int8", 8, 5, 0⟩) :=
  ⟨get_optimal_settings_spec.1 none none,
   ⟨by norm_num, get_optimal_settings_spec.2.1 none 2 (by norm_num)⟩,
   ⟨by norm_num, get_optimal_settings_spec.2.2 none 8 (by norm_num)⟩⟩

/-! ### Claim C8 -/

/-- C8 counterexample: `model_size` supplied as the non-None empty string is
NOT used as supplied — Python `or` treats it as falsy, so the advisor's
recommendation `"small"` is used instead. -/
theorem resolve_empty_string_not_used :
    (resolveTranscribeSettings (some "") none none none "cpu" (some 8)).model_size
      = "small" ∧ ("small" : String) ≠ "" := by
  constructor
  · rfl
  · decide

/-- C8 amended: each of `model_size`, `device`, `compute_type` supplied as a
non-None, nonempty string is used exactly as supplied, and a non-None
`batch_size` (including 0) is used as supplied, each overriding the
recommendation field-by-field; a field left `None` takes the recommended
value; an empty string supplied for one of the string fields is treated as
unset (Python `or` semantics). -/
theorem resolveTranscribeSettings_override (model_size device compute_type : Option String)
    (batch_size : Option Int) (detected : String) (ps : Option ℚ) :
    (∀ m, model_size = some m → m ≠ "" →
      (resolveTranscribeSettings model_size device compute_type batch_size
        detected ps).model_size = m) ∧
    (∀ d, device = some d → d ≠ "" →
      (resolveTranscribeSettings model_size device compute_type batch_size
        detected ps).device = d) ∧
    (∀ c, compute_type = some c → c ≠ "" →
      (resolveTranscribeSettings model_size device compute_type batch_size
        detected ps).compute_type = c) ∧
    (∀ b, batch_size = some b →
      (resolveTranscribeSettings model_size device compute_type batch_size
        detected ps).batch_size = b) ∧
    (model_size = none →
      (resolveTranscribeSettings model_size device compute_type batch_size
        detected ps).model_size =
        (get_optimal_settings (pyOrString device detected) none ps).model_size) ∧
    (compute_type = none →
      (resolveTranscribeSettings model_size device compute_type batch_size
        detected ps).compute_type =
        (get_optimal_settings (pyOrString device detected) none ps).compute_type) ∧
    (device = none →
      (resolveTranscribeSettings model_size device compute_type batch_size
        detected ps).device = detected) ∧
    (batch_size = none →
      (resolveTranscribeSettings model_size device compute_type batch_size
        detected ps).batch_size =
        (get_optimal_settings (pyOrString device detected) none ps).batch_size) ∧
    (model_size = some "" →
      (resolveTranscribeSettings model_size device compute_type batch_size
        detected ps).model_size =
        (get_optimal_settings (pyOrString device detected) none ps).model_size) := by
  refine ⟨?_, ?_, ?_, ?_, ?_, ?_, ?_, ?_, ?_⟩
  · intro m hm hne
    subst hm
    simp [resolveTranscribeSettings, pyOrString, hne]
  · intro d hd hne
    subst hd
    simp [resolveTranscribeSettings, pyOrString, hne]
  · intro c hc hne
    subst hc
    simp [resolveTranscribeSettings, pyOrString, hne]
  · intro b hb
    subst hb
    simp [resolveTranscribeSettings]
  · intro h
    subst h
    simp [resolveTranscribeSettings, pyOrString]
  · intro h
    subst h
    simp [resolveTranscribeSettings, pyOrString]
  · intro h
    subst h
    simp [resolveTranscribeSettings, pyOrString]
  · intro h
    subst h
    simp [resolveTranscribeSettings]
  · intro h
    subst h
    simp [resolveTranscribeSettings, pyOrString]

/-- C8 witness: supplied `model_size "large-v3"`, `device "cuda"` and
`batch_size 0` are used as supplied; an unset `compute_type` takes the
CUDA recommendation `"float16"`. -/
theorem resolveTranscribeSettings_override_witness :
    (resolveTranscribeSettings (some "large-v3") (some "cuda") none (some 0)
      "cpu" none).model_size = "large-v3" ∧
    (resolveTranscribeSettings (some "large-v3") (some "cuda") none (some 0)
      "cpu" none).device = "cuda" ∧
    (resolveTranscribeSettings (some "large-v3") (some "cuda") none (some 0)
      "cpu" none).batch_size = 0 ∧
    (resolveTranscribeSettings (some "large-v3") (some "cuda") none (some 0)
      "cpu" none).compute_type = "float16" := by
  have h := resolveTranscribeSettings_override (some "large-v3") (some "cuda") none
    (some 0) "cpu" none
  refine ⟨h.1 "large-v3" rfl (by decide), h.2.1 "cuda" rfl (by decide),
    h.2.2.2.1 0 rfl, ?_⟩
  rw [h.2.2.2.2.2.1 rfl]
  rfl

/-! ### Claim C4 -/

/-- C4 counterexample: the local and the OpenAI transcription results do not
have the same set of fields — the engine-configuration keys `"model"`,
`"device"` and `"compute_type"` are present only in the local result. -/
theorem result_shapes_differ :
    ("model" ∈ fasterWhisperResultKeys ∧ "model" ∉ openaiResultKeys) ∧
    ("device" ∈ fasterWhisperResultKeys ∧ "device" ∉ openaiResultKeys) ∧
    ("compute_type" ∈ fasterWhisperResultKeys ∧ "compute_type" ∉ openaiResultKeys) := by
  decide

/-- C4 amended: the OpenAI result's keys are a subsequence of the local
result's keys — the six shared fields (audio file, language, duration,
formatted duration, segments, full text) appear in both, in the same order,
and the segment dicts have identical keys; exactly the three
engine-configuration keys (`model`, `device`, `compute_type`) are missing
from the OpenAI result, so callers cannot rely on them. -/
theorem result_shapes_amended :
    openaiResultKeys.Sublist fasterWhisperResultKeys ∧
    fasterWhisperResultKeys.filter
      (fun k => !(openaiResultKeys.contains k)) = ["model", "device", "compute_type"] ∧
    fasterWhisperSegmentKeys = openaiSegmentKeys := by
  refine ⟨?_, by decide, by decide⟩
  decide

/-! ### Timestamp formatting -/

/-- Python `int(x)` on a float/real: truncation toward zero.  (`timedelta`
stores whole microseconds; that sub-microsecond rounding of the float input
is not modelled.) -/
def pyTrunc (q : ℚ) : Int := if 0 ≤ q then ⌊q⌋ else ⌈q⌉

/-- Python `f"{n:02d}"`: decimal rendering, left-padded with a zero when it
is a single character. -/
def pad2 (n : Int) : PyStr :=
  if (intRepr n).length = 1 then '0' :: intRepr n else intRepr n

/-- `format_timestamp` of `transcription.py`: truncate seconds to an int,
`divmod` by 3600 and by 60 (Python floor division and modulo), and render
the three parts zero-padded, separated by colons. -/
def format_timestamp (seconds : ℚ) : PyStr :=
  let total := pyTrunc seconds
  let hours := Int.fdiv total 3600
  let remainder := Int.fmod total 3600
  let minutes := Int.fdiv remainder 60
  let secs := Int.fmod remainder 60
  pad2 hours ++ ':' :: (pad2 minutes ++ ':' :: pad2 secs)

theorem natRepr_length_one (n : Nat) (h : n < 10) : (natRepr n).length = 1 := by
  rw [natRepr, dif_pos h]
  rfl

theorem natRepr_length_two (n : Nat) (h1 : 10 ≤ n) (h2 : n < 100) :
    (natRepr n).length = 2 := by
  rw [natRepr, dif_neg (by omega)]
  rw [List.length_append, natRepr_length_one (n / 10) (by omega)]
  rfl

theorem pad2_length (n : Nat) (h : n < 100) : (pad2 ((n : Nat) : Int)).length = 2 := by
  rw [pad2, intRepr_natCast]
  rcases Nat.lt_or_ge n 10 with h10 | h10
  · rw [if_pos (natRepr_length_one n h10)]
    rw [List.length_cons, natRepr_length_one n h10]
  · rw [natRepr_length_two n h10 h, if_neg (by omega)]
    exact natRepr_length_two n h10 h

/-! ### Claim C6 -/

/-- C6: for every nonnegative number of seconds `s`, `format_timestamp s`
renders `⌊s⌋` zero-padded as `HH:MM:SS`: the parts are the hour, minute and
second components of `⌊s⌋`, minutes and seconds render as exactly two
digits, and hours are not reduced modulo 24 — for `s ≥ 90000` the hours
component exceeds 24. -/
theorem format_timestamp_spec (s : ℚ) (h : 0 ≤ s) :
    format_timestamp s =
      pad2 ((⌊s⌋.toNat / 3600 : Nat) : Int) ++ ':' ::
        (pad2 ((⌊s⌋.toNat % 3600 / 60 : Nat) : Int) ++ ':' ::
          pad2 ((⌊s⌋.toNat % 3600 % 60 : Nat) : Int)) ∧
    (pad2 ((⌊s⌋.toNat % 3600 / 60 : Nat) : Int)).length = 2 ∧
    (pad2 ((⌊s⌋.toNat % 3600 % 60 : Nat) : Int)).length = 2 ∧
    ((90000 : ℚ) ≤ s → 24 < ⌊s⌋.toNat / 3600) := by
  have hfl : (0 : Int) ≤ ⌊s⌋ := Int.floor_nonneg.mpr h
  have htr : pyTrunc s = ((⌊s⌋.toNat : Nat) : Int) := by
    rw [pyTrunc, if_pos h, Int.toNat_of_nonneg hfl]
  refine ⟨?_, pad2_length _ (by omega), pad2_length _ (by omega), ?_⟩
  · rw [format_timestamp]
    simp only [htr]
    have hd1 : Int.fdiv ((⌊s⌋.toNat : Nat) : Int) 3600 = ((⌊s⌋.toNat / 3600 : Nat) : Int) := by
      rw [Int.fdiv_eq_ediv _ (by omega)]
      omega
    have hm1 : Int.fmod ((⌊s⌋.toNat : Nat) : Int) 3600 = ((⌊s⌋.toNat % 3600 : Nat) : Int) := by
      rw [Int.fmod_eq_emod _ (by omega)]
      omega
    have hd2 : Int.fdiv ((⌊s⌋.toNat % 3600 : Nat) : Int) 60 =
        ((⌊s⌋.toNat % 3600 / 60 : Nat) : Int) := by
      rw [Int.fdiv_eq_ediv _ (by omega)]
      omega
    have hm2 : Int.fmod ((⌊s⌋.toNat % 3600 : Nat) : Int) 60 =
        ((⌊s⌋.toNat % 3600 % 60 : Nat) : Int) := by
      rw [Int.fmod_eq_emod _ (by omega)]
      omega
    rw [hd1, hm1, hd2, hm2]
  · intro h9
    have : (90000 : Int) ≤ ⌊s⌋ := by
      rw [Int.le_floor]
      exact_mod_cast h9
    omega

/-- C6 witness: 90000 seconds renders as `"25:00:00"` — the hours component
25 exceeds 24. -/
theorem format_timestamp_spec_witness :
    (0 : ℚ) ≤ 90000 ∧ 24 < ⌊(90000 : ℚ)⌋.toNat / 3600 ∧
    format_timestamp 90000 = ['2', '5', ':', '0', '0', ':', '0', '0'] := by
  have h := format_timestamp_spec 90000 (by norm_num)
  have hfl : ⌊(90000 : ℚ)⌋ = 90000 := by norm_num
  refine ⟨by norm_num, h.2.2.2 (by norm_num), ?_⟩
  rw [h.1]
  rw [hfl]
  have h25 : natRepr 25 = ['2', '5'] := by
    rw [natRepr, dif_neg (by omega)]
    rw [natRepr, dif_pos (by omega)]
    decide
  have h0 : natRepr 0 = ['0'] := by
    rw [natRepr, dif_pos (by omega)]
    decide
  show pad2 ((25 : Nat) : Int) ++ ':' :: (pad2 ((0 : Nat) : Int) ++ ':' :: pad2 ((0 : Nat) : Int))
    = ['2', '5', ':', '0', '0', ':', '0', '0']
  rw [pad2, pad2, intRepr_natCast, intRepr_natCast, h25, h0]
  simp

/-! ### Video encoder adapter (`audio_to_video.py`) -/

/-- The errors `create_video_from_audio` raises: `RuntimeError` for a
missing `ffmpeg` binary, `FileNotFoundError` for each missing input, and
`RuntimeError` carrying the encoder's nonzero exit code. -/
inductive VideoError where
  | toolNotFound
  | audioNotFound
  | imageNotFound
  | encodeFailure (returncode : Int)
deriving DecidableEq, Repr

/-- The environment `create_video_from_audio` observes: whether `ffmpeg` is
on the PATH, whether each input file exists, the encoder's exit code, and
whether the encoder left an output file behind. -/
structure VideoEnv where
  ffmpegPresent : Bool
  audioExists : Bool
  imageExists : Bool
  encoderExitCode : Int
  encoderWroteOutput : Bool
deriving DecidableEq, Repr

/-- What the call did on disk: whether the encoder subprocess was started
and whether an output file exists afterwards. -/
structure VideoTrace where
  subprocessStarted : Bool
  outputFileCreated : Bool
deriving DecidableEq, Repr

/-- `create_video_from_audio` of `audio_to_video.py`: check `ffmpeg`, then
the audio path, then the background image — each check raises before any
subprocess is started and before any output exists; otherwise start the
encoder and raise carrying its exit code when it is nonzero; on exit code 0
the output file exists and the call returns. -/
def create_video_from_audio (env : VideoEnv) : VideoTrace × Except VideoError Unit :=
  if env.ffmpegPresent = false then
    (⟨false, false⟩, Except.error VideoError.toolNotFound)
  else if env.audioExists = false then
    (⟨false, false⟩, Except.error VideoError.audioNotFound)
  else if env.imageExists = false then
    (⟨false, false⟩, Except.error VideoError.imageNotFound)
  else if env.encoderExitCode ≠ 0 then
    (⟨true, env.encoderWroteOutput⟩,
      Except.error (VideoError.encodeFailure env.encoderExitCode))
  else
    (⟨true, true⟩, Except.ok ())

/-! ### Claim C9 -/

/-- C9: `create_video_from_audio` raises the tool-missing error when
`ffmpeg` is absent and a file-not-found error when the audio file or the
background image is missing, in each case with no subprocess started and no
output file created; when the started encoder exits nonzero, it raises the
error carrying that exit code. -/
theorem create_video_spec (env : VideoEnv) :
    (env.ffmpegPresent = false →
      create_video_from_audio env =
        (⟨false, false⟩, Except.error VideoError.toolNotFound)) ∧
    (env.ffmpegPresent = true → env.audioExists = false →
      create_video_from_audio env =
        (⟨false, false⟩, Except.error VideoError.audioNotFound)) ∧
    (env.ffmpegPresent = true → env.audioExists = true → env.imageExists = false →
      create_video_from_audio env =
        (⟨false, false⟩, Except.error VideoError.imageNotFound)) ∧
    (env.ffmpegPresent = true → env.audioExists = true → env.imageExists = true →
      env.encoderExitCode ≠ 0 →
      create_video_from_audio env =
        (⟨true, env.encoderWroteOutput⟩,
          Except.error (VideoError.encodeFailure env.encoderExitCode))) := by
  refine ⟨?_, ?_, ?_, ?_⟩
  · intro h1
    simp [create_video_from_audio, h1]
  · intro h1 h2
    simp [create_video_from_audio, h1, h2]
  · intro h1 h2 h3
    simp [create_video_from_audio, h1, h2, h3]
  · intro h1 h2 h3 h4
    simp [create_video_from_audio, h1, h2, h3, h4]

/-- C9 witness: a missing background image raises the file-not-found error
with no subprocess started; a present-everything environment whose encoder
exits 1 raises the failure carrying exit code 1. -/
theorem create_video_spec_witness :
    create_video_from_audio ⟨true, true, false, 0, false⟩ =
      (⟨false, false⟩, Except.error VideoError.imageNotFound) ∧
    create_video_from_audio ⟨true, true, true, 1, false⟩ =
      (⟨true, false⟩, Except.error (VideoError.encodeFailure 1)) := by
  constructor
  · exact (create_video_spec ⟨true, true, false, 0, false⟩).2.2.1 rfl rfl rfl
  · exact (create_video_spec ⟨true, true, true, 1, false⟩).2.2.2 rfl rfl rfl (by decide)

/-! ### Timestamped transcript text: writer and parser -/

/-- A segment as it appears in the timestamped text file: its formatted
start timestamp and its text. -/
structure SegText where
  start_formatted : PyStr
  text : PyStr
deriving DecidableEq, Repr

/-- The timestamped-text writer of `transcription.py` (lines 251-254): for
each segment write `[[<start_formatted>]]`, a newline, the text, and a
blank line. -/
def writeSegment (seg : SegText) : PyStr :=
  '[' :: '[' :: (seg.start_formatted ++ ']' :: ']' :: '\n' :: (seg.text ++ ['\n', '\n']))

/-- The whole timestamped text file for a list of segments. -/
def writeTimestamped (segs : List SegText) : PyStr :=
  (segs.map writeSegment).flatten

/-- Modelled from the spec: the repository contains no parser for the
timestamped text format; this is the marker-line test of the format in
which each segment starts with a `[[..]]` line (§4.2, §8). -/
def isMarkerLine (l : PyStr) : Bool :=
  decide (4 ≤ l.length) && ['[', '['].isPrefixOf l && [']', ']'].isSuffixOf l

/-- Modelled from the spec: the timestamp between the `[[` and `]]` of a
marker line. -/
def markerTs (l : PyStr) : PyStr := (l.drop 2).take (l.length - 4)

/-- Modelled from the spec: the line scanner of the timestamped-text parser.
A `[[..]]` marker line starts a segment; the following lines up to a blank
line form its text (joined with newlines); other lines are skipped.  The
accumulator holds the open segment's timestamp and its text lines in
reverse. -/
def parseGo : List PyStr → Option (PyStr × List PyStr) → List (PyStr × PyStr)
  | [], none => []
  | [], some (ts, acc) => [(ts, joinLines acc.reverse)]
  | l :: rest, none =>
    if isMarkerLine l then parseGo rest (some (markerTs l, []))
    else parseGo rest none
  | l :: rest, some (ts, acc) =>
    if l = [] then (ts, joinLines acc.reverse) :: parseGo rest none
    else parseGo rest (some (ts, l :: acc))

/-- Modelled from the spec: re-parse a timestamped text file into its
ordered `(start_formatted, text)` pairs. -/
def parseTimestamped (content : PyStr) : List (PyStr × PyStr) :=
  parseGo (content.splitOn '\n') none

theorem isMarkerLine_marker (ts : PyStr) :
    isMarkerLine ('[' :: '[' :: (ts ++ [']', ']'])) = true := by
  rw [isMarkerLine]
  simp only [Bool.and_eq_true]
  refine ⟨⟨?_, ?_⟩, ?_⟩
  · simp
  · simp [List.isPrefixOf]
  · rw [List.isSuffixOf]
    have hrev : ('[' :: '[' :: (ts ++ [']', ']'])).reverse =
        ']' :: ']' :: (ts.reverse ++ ['[', '[']) := by
      simp
    rw [hrev]
    simp [List.isPrefixOf]

theorem markerTs_marker (ts : PyStr) :
    markerTs ('[' :: '[' :: (ts ++ [']', ']'])) = ts := by
  rw [markerTs]
  have hlen : ('[' :: '[' :: (ts ++ [']', ']'])).length - 4 = ts.length := by
    simp
  rw [hlen]
  have hdrop : ('[' :: '[' :: (ts ++ [']', ']'])).drop 2 = ts ++ [']', ']'] := rfl
  rw [hdrop]
  exact List.take_left' rfl

theorem splitOn_writeSegment (seg : SegText) (B : PyStr)
    (hts : '\n' ∉ seg.start_formatted) (htext : '\n' ∉ seg.text) :
    (writeSegment seg ++ B).splitOn '\n' =
      ('[' :: '[' :: (seg.start_formatted ++ [']', ']'])) :: seg.text :: [] ::
        B.splitOn '\n' := by
  have hform : writeSegment seg ++ B =
      ('[' :: '[' :: (seg.start_formatted ++ [']', ']'])) ++
        '\n' :: (seg.text ++ '\n' :: ([] ++ '\n' :: B)) := by
    rw [writeSegment]
    simp
  rw [hform, List.splitOn, List.splitOn]
  rw [List.splitOnP_first _ _
    (fun x hx => by
      simp only [beq_iff_eq]
      intro heq
      subst heq
      simp only [List.mem_cons, List.mem_append, List.mem_singleton] at hx
      rcases hx with h1 | h1 | h1 | h1 | h1
      · exact absurd h1 (by decide)
      · exact absurd h1 (by decide)
      · exact hts h1
      · exact absurd h1 (by decide)
      · exact absurd h1 (by decide))
    '\n' (by simp) _]
  rw [List.splitOnP_first _ _
    (fun x hx => by
      simp only [beq_iff_eq]
      intro heq
      subst heq
      exact htext hx)
    '\n' (by simp) _]
  rw [List.splitOnP_first _ []
    (fun x hx => by simp at hx) '\n' (by simp) B]

theorem parseGo_cons_none (l : PyStr) (rest : List PyStr) :
    parseGo (l :: rest) none =
      if isMarkerLine l then parseGo rest (some (markerTs l, []))
      else parseGo rest none := rfl

theorem parseGo_cons_some (l : PyStr) (rest : List PyStr) (ts : PyStr) (acc : List PyStr) :
    parseGo (l :: rest) (some (ts, acc)) =
      if l = [] then (ts, joinLines acc.reverse) :: parseGo rest none
      else parseGo rest (some (ts, l :: acc)) := rfl

theorem parseGo_writeTimestamped (segs : List SegText)
    (h : ∀ seg ∈ segs, '\n' ∉ seg.start_formatted ∧ '\n' ∉ seg.text) :
    parseGo ((writeTimestamped segs).splitOn '\n') none =
      segs.map (fun seg => (seg.start_formatted, seg.text)) := by
  induction segs with
  | nil => rfl
  | cons seg rest ih =>
    have hseg := h seg (List.mem_cons_self seg rest)
    have hrest := fun s hs => h s (List.mem_cons_of_mem seg hs)
    have hws : writeTimestamped (seg :: rest) = writeSegment seg ++ writeTimestamped rest := by
      rw [writeTimestamped, List.map_cons, List.flatten_cons]
      rfl
    rw [hws, splitOn_writeSegment seg _ hseg.1 hseg.2]
    rw [parseGo_cons_none, if_pos (isMarkerLine_marker _), markerTs_marker]
    rcases eq_or_ne seg.text [] with htext | htext
    · rw [htext, parseGo_cons_some, if_pos rfl, parseGo_cons_none,
        if_neg (by decide), ih hrest]
      rw [List.map_cons, htext]
      rfl
    · rw [parseGo_cons_some, if_neg htext, parseGo_cons_some, if_pos rfl, ih hrest]
      rw [List.map_cons]
      rfl

/-! ### Claim C7 -/

/-- C7 counterexample: the round trip cannot hold for every list of
segments.  First, the writer is not injective — two different segment lists
produce the same file, so no parser can reconstruct both; second, with the
spec-modelled parser, a segment whose text contains a blank line is not
reconstructed. -/
theorem roundTrip_counterexample :
    (writeTimestamped [⟨['a', ']', ']', '\n', 'b'], ['c']⟩] =
        writeTimestamped [⟨['a'], ['b', ']', ']', '\n', 'c']⟩] ∧
      (⟨['a', ']', ']', '\n', 'b'], ['c']⟩ : SegText) ≠
        ⟨['a'], ['b', ']', ']', '\n', 'c']⟩) ∧
    parseTimestamped (writeTimestamped [⟨['0'], ['a', '\n', '\n', 'b']⟩]) ≠
      [(['0'], ['a', '\n', '\n', 'b'])] := by
  refine ⟨⟨?_, ?_⟩, ?_⟩
  · decide
  · decide
  · decide

/-- C7 (amended): for every list of segments in which no formatted start
timestamp and no text contains a newline — as holds for every segment the
writer receives from `format_timestamp` and single-line texts — writing the
timestamped text file and re-parsing it reconstructs the same ordered list
of `(start_formatted, text)` pairs. -/
theorem writeTimestamped_roundTrip (segs : List SegText)
    (h : ∀ seg ∈ segs, '\n' ∉ seg.start_formatted ∧ '\n' ∉ seg.text) :
    parseTimestamped (writeTimestamped segs) =
      segs.map (fun seg => (seg.start_formatted, seg.text)) := by
  rw [parseTimestamped]
  exact parseGo_writeTimestamped segs h

/-- C7 witness: two well-formed segments (the second with empty text)
round-trip through the written file. -/
theorem writeTimestamped_roundTrip_witness :
    parseTimestamped (writeTimestamped
      [⟨['0', '0', ':', '0', '0', ':', '0', '0'], ['h', 'i']⟩,
       ⟨['0', '0', ':', '0', '2', ':', '3', '0'], []⟩]) =
      [(['0', '0', ':', '0', '0', ':', '0', '0'], ['h', 'i']),
       (['0', '0', ':', '0', '2', ':', '3', '0'], [])] := by
  have h := writeTimestamped_roundTrip
    [⟨['0', '0', ':', '0', '0', ':', '0', '0'], ['h', 'i']⟩,
     ⟨['0', '0', ':', '0', '2', ':', '3', '0'], []⟩]
    (by decide)
  simpa using h
